import Mathlib

/-!
# Verification of the QuizeFactorMcp translation scheduling core

Shallow embedding of the job queue, scheduler, rate-limit controller and
adaptive batch executor of the QuizeFactorMcp repository
(`src/services/translationQueue.js` and the `TranslationService` revision
holding `processQuestionsInBatches` / `translateSingleQuestion` /
`handleRateLimitError` / `resetRateLimitState`), together with theorems
settling the testable properties of the specification.

JavaScript numbers are modelled as `Nat` where the code only ever holds
non-negative integers (counters, timestamps in milliseconds, sizes) and as
`ℚ` for the backoff multiplier, on which the code performs exact decimal
arithmetic (`* 1.5`, `* 0.8`, `min`, `max`).  `Math.round x` is modelled as
`⌊x + 1/2⌋`, its semantics on non-negative values.  Maps keyed by uuid are
modelled as association lists keyed by `Nat`; `Map.set` replaces an existing
key and otherwise appends, `Map.delete` splices out the first match, which
matches the uniqueness of uuids.
-/

namespace QuizFactor

/-! ## Job records (translationQueue.js, `addToQueue`) -/

/-- The `progress` object stored on every queue item. -/
structure Progress where
  current : Nat
  total : Nat
  percentage : Nat
  message : String
deriving DecidableEq, Repr

/-- One queue item as built by `addToQueue`.  The kind-specific `data`
payload is reduced to the fields the queue actually reads:
`data.questions` (presence and length) and `data.targetLanguages` (length). -/
structure QueueItem where
  id : Nat
  type : String
  hasQuestions : Bool
  nQuestions : Nat
  nLanguages : Nat
  priority : String
  progress : Progress
deriving DecidableEq, Repr

/-- Function `estimateTotal(type, data)` (translationQueue.js lines 283 to 294). -/
def estimateTotal (type : String) (hasQuestions : Bool) (nQuestions nLanguages : Nat) : Nat :=
  if type = "category" ∨ type = "course" ∨ type = "quiz" then 2
  else if type = "questions" then
    (if hasQuestions then nQuestions * nLanguages else 10)
  else 1

/-- The queue item literal built at the top of `addToQueue`
(translationQueue.js lines 24 to 38). -/
def mkQueueItem (id : Nat) (type : String) (hasQuestions : Bool)
    (nQuestions nLanguages : Nat) (priority : String) : QueueItem :=
  { id := id
    type := type
    hasQuestions := hasQuestions
    nQuestions := nQuestions
    nLanguages := nLanguages
    priority := priority
    progress :=
      { current := 0
        total := estimateTotal type hasQuestions nQuestions nLanguages
        percentage := 0
        message := "Waiting in queue..." } }

/-- The insertion step of `addToQueue` (translationQueue.js lines 40 to 45):
`high` priority goes through `unshift` (head), everything else through
`push` (tail). -/
def addToQueue (queue : List QueueItem) (item : QueueItem) : List QueueItem :=
  if item.priority = "high" then item :: queue else queue ++ [item]

/-! ## The queue state and its operations -/

/-- A record in the `completed` or `failed` map: `error` is `some msg`
exactly for failed records. -/
structure TerminalRecord where
  id : Nat
  type : String
  error : Option String
deriving DecidableEq, Repr

/-- The mutable state of the `TranslationQueue` singleton. -/
structure QueueState where
  queue : List QueueItem
  processing : List QueueItem
  completed : List TerminalRecord
  failed : List TerminalRecord
  currentlyProcessing : Nat
deriving DecidableEq, Repr

/-- The cap `this.maxConcurrent = 1` (translationQueue.js line 11). -/
def maxConcurrent : Nat := 1

/-- The state built by the constructor (translationQueue.js lines 5 to 12). -/
def initialQueueState : QueueState :=
  { queue := [], processing := [], completed := [], failed := [], currentlyProcessing := 0 }

/-- Operation `Map.set` on an association list keyed by `id`: replace an existing
entry, otherwise append. -/
def mapSet (m : List QueueItem) (item : QueueItem) : List QueueItem :=
  if m.any (fun x => x.id == item.id) then
    m.map (fun x => if x.id == item.id then item else x)
  else m ++ [item]

/-- Remove the first element satisfying `p`, the effect of
`findIndex` + `splice(index, 1)` and of `Map.delete`. -/
def spliceFirst (p : QueueItem → Bool) : List QueueItem → List QueueItem
  | [] => []
  | x :: xs => if p x then xs else x :: spliceFirst p xs

/-- The view returned by `getStatus` (translationQueue.js lines 62 to 101),
tagged by which store the id was found in. -/
inductive StatusView where
  | processingView (item : QueueItem)
  | completedView (r : TerminalRecord)
  | failedView (r : TerminalRecord)
  | queuedView (position : Nat) (item : QueueItem)
deriving DecidableEq, Repr

/-- The `status` string of a view. -/
def StatusView.kind : StatusView → String
  | .processingView _ => "processing"
  | .completedView _ => "completed"
  | .failedView _ => "failed"
  | .queuedView _ _ => "queued"

/-- Function `getQueuePosition` (translationQueue.js lines 271 to 273):
1-based index in the pending sequence, 0 when absent. -/
def getQueuePosition (s : QueueState) (id : Nat) : Nat :=
  match s.queue.findIdx? (fun it => it.id == id) with
  | some i => i + 1
  | none => 0

/-- Function `getStatus` (translationQueue.js lines 62 to 101): checks the
`processing`, `completed`, `failed` maps and then the pending queue, in
that order; `none` models the `null` (not found) result. -/
def getStatus (s : QueueState) (id : Nat) : Option StatusView :=
  match s.processing.find? (fun it => it.id == id) with
  | some it => some (.processingView it)
  | none =>
    match s.completed.find? (fun r => r.id == id) with
    | some r => some (.completedView r)
    | none =>
      match s.failed.find? (fun r => r.id == id) with
      | some r => some (.failedView r)
      | none =>
        match s.queue.find? (fun it => it.id == id) with
        | some it => some (.queuedView (getQueuePosition s id) it)
        | none => none

/-- Function `cancelRequest` (translationQueue.js lines 306 to 320): splices the
first queue entry with the given id out of the pending sequence and
reports whether one was found. -/
def cancelRequest (s : QueueState) (id : Nat) : Bool × QueueState :=
  if s.queue.any (fun it => it.id == id) then
    (true, { s with queue := spliceFirst (fun it => it.id == id) s.queue })
  else (false, s)

/-- Outcome of the cancel endpoint. -/
inductive CancelOutcome where
  | ok
  | cannotCancel
  | notFound
deriving DecidableEq, Repr

/-- Endpoint `cancelTranslation` (translation controller, lines 604 to 669): looks
the id up through `getStatus`, refuses `processing`, `completed` and
`failed` records, reports not-found for unknown ids and otherwise delegates
to `cancelRequest`. -/
def cancelTranslation (s : QueueState) (id : Nat) : CancelOutcome × QueueState :=
  match getStatus s id with
  | none => (.notFound, s)
  | some (.processingView _) => (.cannotCancel, s)
  | some (.completedView _) => (.cannotCancel, s)
  | some (.failedView _) => (.cannotCancel, s)
  | some (.queuedView _ _) =>
    let r := cancelRequest s id
    if r.1 then (.ok, r.2) else (.cannotCancel, r.2)

/-! ## Progress updates (translationQueue.js, `updateProgress`) -/

/-- Behaviour of `Math.round` on the non-negative rationals the code feeds it. -/
def jsRound (q : ℚ) : ℤ := ⌊q + 1 / 2⌋

/-- The `updateProgress` callback of `processItem` (translationQueue.js
lines 176 to 187): overwrites the progress object, computing
`percentage = total > 0 ? Math.round((current / total) * 100) : 0`. -/
def updateProgress (item : QueueItem) (current total : Nat) (message : String) : QueueItem :=
  { item with progress :=
    { current := current
      total := total
      percentage := if 0 < total then (jsRound ((current : ℚ) / (total : ℚ) * 100)).toNat else 0
      message := message } }

/-- The `(current, total, message)` arguments of every `updateProgress`
call `processItem` issues for a job of the given type (translationQueue.js
lines 189 to 227): exactly one call per known type, none for unknown
types (the `default` branch throws before any update). -/
def progressUpdates (type : String) (nQuestions nLanguages : Nat) : List (Nat × Nat × String) :=
  if type = "category" then [(0, 2, "Translating category...")]
  else if type = "course" then [(0, 2, "Translating course...")]
  else if type = "quiz" then [(0, 2, "Translating quiz...")]
  else if type = "questions" then
    [(0, nQuestions * nLanguages, "Translating questions...")]
  else []

/-- The successive values of `progress.percentage` seen by a job that
starts with the given item state and receives the given update calls. -/
def percentageTrace (item : QueueItem) : List (Nat × Nat × String) → List Nat
  | [] => [item.progress.percentage]
  | u :: rest => item.progress.percentage :: percentageTrace (updateProgress item u.1 u.2.1 u.2.2) rest

/-! ## The scheduler as a step system

`startProcessing` (translationQueue.js lines 134 to 154) is a single loop
that admits the head pending job whenever
`currentlyProcessing < maxConcurrent`.  `processItem` (lines 157 to 268)
increments `currentlyProcessing` and installs the item in the `processing`
map synchronously before its first await, and on resolution removes the
item, appends a terminal record and decrements the counter, again
synchronously.  The step system below therefore has an `admit` step (the
synchronous head of `processItem`) and a `finish` step (its resolution),
interleaved arbitrarily with `enqueue` and `cancel` calls. -/

/-- The four job types `processItem` recognises (its `switch` cases). -/
def knownTypes : List String := ["category", "course", "quiz", "questions"]

/-- Resolution of a job: for a known type the outcome of the translation
service call (`none` = success, `some msg` = the thrown error message);
for any other type the `default` branch of the `switch` throws
`Unknown translation type: <type>` unconditionally (line 226). -/
def resolveOutcome (item : QueueItem) (outcome : Option String) : Option String :=
  if item.type ∈ knownTypes then outcome
  else some ("Unknown translation type: " ++ item.type)

/-- One scheduler event. -/
inductive SchedStep where
  | enqueue (item : QueueItem)
  | cancel (id : Nat)
  | admitHead
  | finish (id : Nat) (outcome : Option String)

/-- The terminal record appended by `processItem` on resolution
(translationQueue.js lines 230 to 239 and 253 to 263). -/
def terminalRecord (item : QueueItem) (resolved : Option String) : TerminalRecord :=
  { id := item.id, type := item.type, error := resolved }

/-- Apply one scheduler event to the queue state.  Steps whose guard does
not hold (admission with a busy slot or an empty queue, finishing or
cancelling an id that is not there) leave the state unchanged, exactly as
the corresponding code paths do. -/
def applyStep (s : QueueState) : SchedStep → QueueState
  | .enqueue item => { s with queue := addToQueue s.queue item }
  | .cancel id => (cancelRequest s id).2
  | .admitHead =>
    if s.currentlyProcessing < maxConcurrent then
      match s.queue with
      | [] => s
      | item :: rest =>
        { s with
          queue := rest
          processing := mapSet s.processing item
          currentlyProcessing := s.currentlyProcessing + 1 }
    else s
  | .finish id outcome =>
    match s.processing.find? (fun it => it.id == id) with
    | none => s
    | some item =>
      let s1 := { s with
        processing := spliceFirst (fun x => x.id == id) s.processing
        currentlyProcessing := s.currentlyProcessing - 1 }
      match resolveOutcome item outcome with
      | none => { s1 with completed := s1.completed ++ [terminalRecord item none] }
      | some e => { s1 with failed := s1.failed ++ [terminalRecord item (some e)] }

/-- Run a list of scheduler events from a state. -/
def runSched (s : QueueState) (steps : List SchedStep) : QueueState :=
  steps.foldl applyStep s

/-- One full service round of the loop when the slot is free: admit the
head pending job and run `processItem` on it to resolution.  This is the
composition of an `admitHead` step and the matching `finish` step of the
step system above, collapsed into one transition. -/
def processHead (s : QueueState) (outcome : Option String) : QueueState :=
  match s.queue with
  | [] => s
  | item :: rest =>
    let s1 := { s with queue := rest }
    match resolveOutcome item outcome with
    | none => { s1 with completed := s1.completed ++ [terminalRecord item none] }
    | some e => { s1 with failed := s1.failed ++ [terminalRecord item (some e)] }

/-- Serve pending jobs one at a time, each to resolution, with the given
outcomes. -/
def drainQueue (s : QueueState) : List (Option String) → QueueState
  | [] => s
  | oc :: rest => drainQueue (processHead s oc) rest

/-! ## Rate-limit state (TranslationService, part_004)

`this.rateLimitState` (lines 369 to 377) and its two mutators
`handleRateLimitError` (lines 444 to 462) and `resetRateLimitState`
(lines 484 to 498).  `Date.now()` values are the `now` arguments. -/

structure RateLimitState where
  isRateLimited : Bool
  rateLimitCount : Nat
  lastRateLimitTime : Option Nat
  backoffMultiplier : ℚ
  maxBackoffMultiplier : ℚ
deriving DecidableEq, Repr

/-- The state installed by the `TranslationService` constructor. -/
def initialRateLimitState : RateLimitState :=
  { isRateLimited := false
    rateLimitCount := 0
    lastRateLimitTime := none
    backoffMultiplier := 1
    maxBackoffMultiplier := 8 }

/-- Function `handleRateLimitError` (state mutation part, lines 445 to 453): marks
the state rate-limited, counts the event, stamps it, and scales the
multiplier by 1.5 capped at `maxBackoffMultiplier`. -/
def handleRateLimitError (s : RateLimitState) (now : Nat) : RateLimitState :=
  { s with
    isRateLimited := true
    rateLimitCount := s.rateLimitCount + 1
    lastRateLimitTime := some now
    backoffMultiplier := min (s.backoffMultiplier * (3 / 2)) s.maxBackoffMultiplier }

/-- Function `resetRateLimitState` (lines 484 to 498): decays the multiplier by 0.8
floored at 1 whenever it is above 1, and clears `isRateLimited` once more
than 30 seconds have passed since the last rate-limit event (`null`
timestamps coerce to 0 in the JavaScript subtraction). -/
def resetRateLimitState (s : RateLimitState) (now : Nat) : RateLimitState :=
  let s1 :=
    if 1 < s.backoffMultiplier then
      { s with backoffMultiplier := max 1 (s.backoffMultiplier * (4 / 5)) }
    else s
  if s1.isRateLimited then
    if 30000 < now - s1.lastRateLimitTime.getD 0 then
      { s1 with isRateLimited := false }
    else s1
  else s1

/-- An event seen by the rate-limit state: a throttled call or a
successful call, at a given `Date.now()`. -/
inductive RLEvent where
  | throttle (now : Nat)
  | success (now : Nat)
deriving DecidableEq, Repr

/-- Apply one event: `translateWithLLM` calls `handleRateLimitError` on a
rate-limit error and `resetRateLimitState` on success. -/
def applyRLEvent (s : RateLimitState) : RLEvent → RateLimitState
  | .throttle now => handleRateLimitError s now
  | .success now => resetRateLimitState s now

/-- Run a sequence of call outcomes against the rate-limit state. -/
def runRL (s : RateLimitState) (events : List RLEvent) : RateLimitState :=
  events.foldl applyRLEvent s

/-- Number of throttle events in a trace. -/
def throttleCount (events : List RLEvent) : Nat :=
  events.countP (fun e => match e with | .throttle _ => true | .success _ => false)

/-! ## Adaptive batch sizing (`processQuestionsInBatches`, part_004 lines 1306 to 1438)

The loop slices `questionsData` into chunks of `currentBatchSize`
questions.  What the controller state is after each chunk depends on the
translation calls made inside it; the embedding abstracts it as an oracle
`obs : Nat → ChunkObs` giving the observed `(isRateLimited, rateLimitCount)`
pair at the end of chunk `k`.  The loop variable `i` advances by the batch
size as adjusted at the end of the chunk, exactly as the JavaScript
`for` update expression does. -/

/-- The rate-limit fields `processQuestionsInBatches` reads. -/
structure ChunkObs where
  isRateLimited : Bool
  rateLimitCount : Nat
deriving DecidableEq, Repr

/-- The chunk loop.  Each emitted pair is
`(currentBatchSize at the top of the chunk, length of the slice)`;
`fuel` bounds the iteration count (any `fuel ≥ n` is enough once the
batch size stays at least 1). -/
def chunkLoop (n initial : Nat) (obs : Nat → ChunkObs) :
    Nat → Nat → Nat → Nat → List (Nat × Nat)
  | 0, _, _, _ => []
  | fuel + 1, i, cbs, k =>
    if i < n then
      let size := min cbs (n - i)
      let o := obs k
      let cbs2 :=
        if o.isRateLimited = false ∧ o.rateLimitCount = 0 ∧ cbs < initial then
          min (cbs + 1) initial
        else cbs
      (cbs, size) :: chunkLoop n initial obs fuel (i + cbs2) cbs2 (k + 1)
    else []

/-- The chunk sizes used by `processQuestionsInBatches` on `n` questions:
the entry test (lines 1312 to 1315) drops to one-at-a-time when the state
is rate limited or has ever been, and the end-of-chunk test (lines 1430
to 1434) grows the size by one only while `rateLimitCount` is exactly 0. -/
def processQuestionsChunkSizes (n : Nat) (entry : ChunkObs) (obs : Nat → ChunkObs)
    (initial : Nat) : List (Nat × Nat) :=
  let cbs0 := if entry.isRateLimited = true ∨ 0 < entry.rateLimitCount then 1 else initial
  chunkLoop n initial obs n 0 cbs0 0

/-! ## A questions job through `processItem` (C8)

For a `questions` item, `processItem` (translationQueue.js lines 214 to
223) creates a fresh `TranslationService`, issues a single
`updateProgress(0, questions.length * targetLanguages.length, ...)` call,
and then awaits `translateQuestions` without passing the progress callback
down.  On success it stores a completed record holding the service result,
whose `statistics.rateLimitEncounters` is the final `rateLimitCount`
(part_004 line 1297).  The record itself has no progress field. -/

/-- The fields of the completed record relevant to the scenario claims. -/
structure CompletedQuestionsRecord where
  id : Nat
  status : String
  totalOperations : Nat
  rateLimitEncounters : Nat
deriving DecidableEq, Repr

/-- A successful `questions` job through `processItem`: the final progress
object of the in-flight record (written once, before the service call) and
the completed record stored on resolution.  `events` is the trace of
throttled and successful provider calls the run encountered; the service
starts from a fresh `rateLimitState`. -/
def processQuestionsItem (item : QueueItem) (events : List RLEvent) :
    Progress × CompletedQuestionsRecord :=
  let totalOperations := item.nQuestions * item.nLanguages
  let afterUpdate := updateProgress item 0 totalOperations "Translating questions..."
  let finalState := runRL initialRateLimitState events
  (afterUpdate.progress,
   { id := item.id
     status := "completed"
     totalOperations := totalOperations
     rateLimitEncounters := finalState.rateLimitCount })

/-! ## Per-question translation assembly (`translateSingleQuestion`, part_004 lines 1440 to 1574)

For each target language the code first looks the language up in the
existing translations of the question and reuses the hit; only languages
without a hit go to `translateToLanguage`.  The sequential branch (lines
1490 to 1513), the parallel branch (lines 1526 to 1535) and the
rate-limit retry branch (lines 1544 to 1563) all compute the same
per-language results; `buildTranslations` is that computation, also
returning the list of languages for which a translation call was made. -/

/-- One entry of the `translations` array of a question, reduced to the fields
the skip logic reads and forwards. -/
structure Translation where
  languageCode : String
  questionText : String
deriving DecidableEq, Repr

/-- Per-language assembly with call tracking: the first component is the
new `translations` array (one entry per target language, in order), the
second the languages for which `translateToLanguage` was invoked. -/
def buildTranslations (existing : List Translation) (oracle : String → Translation) :
    List String → List Translation × List String
  | [] => ([], [])
  | lang :: rest =>
    let r := buildTranslations existing oracle rest
    match existing.find? (fun t => t.languageCode == lang) with
    | some tr => (tr :: r.1, r.2)
    | none => (oracle lang :: r.1, lang :: r.2)

/-- The translations array `translateSingleQuestion` installs, with the
dispatch of lines 1487 and 1514 to 1523: when rate limited it runs the
sequential builder; otherwise, if every target language already has a
translation it keeps the existing array unchanged (and makes no calls),
else it runs the builder. -/
def translateSingleQuestionTranslations (rateLimited : Bool) (existing : List Translation)
    (oracle : String → Translation) (targets : List String) : List Translation × List String :=
  if rateLimited then buildTranslations existing oracle targets
  else if targets.all (fun l => (existing.find? (fun t => t.languageCode == l)).isSome) then
    (existing, [])
  else buildTranslations existing oracle targets

/-! ## Retention of terminal records (`cleanup`, translationQueue.js lines 322 to 340)

The constructor arms `setInterval(() => this.cleanup(), 60 * 60 * 1000)`,
so sweeps run at times `k * hourMs` for `k ≥ 1` after process start.  Each
sweep deletes a terminal record exactly when its terminal timestamp is
strictly older than one hour.  A record with terminal timestamp `T` is
therefore still in its map at query time `t` exactly when no sweep at or
before `t` found it expired. -/

/-- One hour in milliseconds. -/
def hourMs : Nat := 60 * 60 * 1000

/-- Whether the sweep running at time `sweepTime` keeps a record whose
terminal timestamp is `T`: `cleanup` deletes when
`T < sweepTime - hourMs`. -/
def sweepKeeps (sweepTime T : Nat) : Bool :=
  !(T < sweepTime - hourMs)

/-- Whether a terminal record stamped `T` is still present at time `t`,
given the hourly sweeps at `hourMs, 2 * hourMs, ...` up to `t`. -/
def terminalRetainedAt (T t : Nat) : Bool :=
  (List.range (t / hourMs + 1)).all (fun k => k == 0 || sweepKeeps (k * hourMs) T)

/-- The status string `getStatus` reports at time `t` for a job whose only
record is a terminal one stamped `T`: its stored status (`"completed"` or
`"failed"`) while the record is retained, `none` (not found) after the
sweeper has purged it. -/
def terminalStatusAt (status : String) (T t : Nat) : Option String :=
  if terminalRetainedAt T t then some status else none

/-! ## Shared lemmas -/

theorem mapSet_length_le (m : List QueueItem) (item : QueueItem) :
    (mapSet m item).length ≤ m.length + 1 := by
  unfold mapSet
  split
  · simp
  · simp

theorem spliceFirst_length (p : QueueItem → Bool) (l : List QueueItem)
    (h : ∃ x ∈ l, p x = true) : (spliceFirst p l).length + 1 = l.length := by
  induction l with
  | nil => simp at h
  | cons x xs ih =>
    by_cases hx : p x = true
    · simp [spliceFirst, hx]
    · have hx2 : p x = false := by simpa using hx
      rcases h with ⟨y, hy, hpy⟩
      rcases List.mem_cons.mp hy with rfl | hmem
      · exact absurd hpy hx
      · have hh := ih ⟨y, hmem, hpy⟩
        simp only [spliceFirst, hx2, Bool.false_eq_true, if_false, List.length_cons]
        omega

/-- The invariant the scheduling loop maintains: the in-flight map never
holds more entries than `currentlyProcessing` admits, and the counter is
bounded by the concurrency cap. -/
def SchedInv (s : QueueState) : Prop :=
  s.processing.length ≤ s.currentlyProcessing ∧ s.currentlyProcessing ≤ maxConcurrent

theorem schedInv_initial : SchedInv initialQueueState := by
  constructor <;> simp [initialQueueState, maxConcurrent]

theorem schedInv_step (s : QueueState) (step : SchedStep) (h : SchedInv s) :
    SchedInv (applyStep s step) := by
  obtain ⟨hlen, hcap⟩ := h
  cases step with
  | enqueue item => exact ⟨hlen, hcap⟩
  | cancel id =>
    show SchedInv (cancelRequest s id).2
    by_cases hc : s.queue.any (fun it => it.id == id) = true
    · simp only [cancelRequest, if_pos hc]
      exact ⟨hlen, hcap⟩
    · simp only [cancelRequest, if_neg hc]
      exact ⟨hlen, hcap⟩
  | admitHead =>
    by_cases hlt : s.currentlyProcessing < maxConcurrent
    · match hq : s.queue with
      | [] =>
        simp only [applyStep, if_pos hlt, hq]
        exact ⟨hlen, hcap⟩
      | item :: rest =>
        simp only [applyStep, if_pos hlt, hq]
        refine ⟨?_, hlt⟩
        calc (mapSet s.processing item).length ≤ s.processing.length + 1 :=
              mapSet_length_le _ _
          _ ≤ s.currentlyProcessing + 1 := Nat.add_le_add_right hlen 1
    · simp only [applyStep, if_neg hlt]
      exact ⟨hlen, hcap⟩
  | finish id outcome =>
    match hf : s.processing.find? (fun it => it.id == id) with
    | none =>
      simp only [applyStep, hf]
      exact ⟨hlen, hcap⟩
    | some item =>
      have hpitem := List.find?_some hf
      have hmem : ∃ x ∈ s.processing, (x.id == id) = true :=
        ⟨item, List.mem_of_find?_eq_some hf, hpitem⟩
      have hsplice := spliceFirst_length (fun x => x.id == id) s.processing hmem
      have hlen1 : (spliceFirst (fun x => x.id == id) s.processing).length ≤
          s.currentlyProcessing - 1 := by omega
      have hcap1 : s.currentlyProcessing - 1 ≤ maxConcurrent := by
        unfold maxConcurrent at hcap ⊢
        omega
      simp only [applyStep, hf]
      match hr : resolveOutcome item outcome with
      | none =>
        simp only [hr]
        exact ⟨hlen1, hcap1⟩
      | some e =>
        simp only [hr]
        exact ⟨hlen1, hcap1⟩

theorem schedInv_run (s : QueueState) (steps : List SchedStep) (h : SchedInv s) :
    SchedInv (runSched s steps) := by
  induction steps generalizing s with
  | nil => exact h
  | cons step rest ih => exact ih _ (schedInv_step s step h)

/-- Invariant of the rate-limit state: the cap field is the constant 8 and
the multiplier sits in `[1, 8]`. -/
def RLInv (s : RateLimitState) : Prop :=
  s.maxBackoffMultiplier = 8 ∧ 1 ≤ s.backoffMultiplier ∧ s.backoffMultiplier ≤ 8

theorem rlInv_initial : RLInv initialRateLimitState := by
  refine ⟨rfl, ?_, ?_⟩ <;> norm_num [initialRateLimitState]

theorem rlInv_reset (s : RateLimitState) (now : Nat) (h : RLInv s) :
    RLInv (resetRateLimitState s now) := by
  obtain ⟨hmax, hlo, hhi⟩ := h
  unfold resetRateLimitState
  by_cases hgt : (1 : ℚ) < s.backoffMultiplier
  · have hlo1 : (1 : ℚ) ≤ max 1 (s.backoffMultiplier * (4 / 5)) := le_max_left _ _
    have hhi1 : max 1 (s.backoffMultiplier * (4 / 5)) ≤ 8 :=
      max_le (by norm_num) (by nlinarith)
    simp only [if_pos hgt]
    split
    · split
      · exact ⟨hmax, hlo1, hhi1⟩
      · exact ⟨hmax, hlo1, hhi1⟩
    · exact ⟨hmax, hlo1, hhi1⟩
  · simp only [if_neg hgt]
    split
    · split
      · exact ⟨hmax, hlo, hhi⟩
      · exact ⟨hmax, hlo, hhi⟩
    · exact ⟨hmax, hlo, hhi⟩

theorem rlInv_step (s : RateLimitState) (e : RLEvent) (h : RLInv s) :
    RLInv (applyRLEvent s e) := by
  obtain ⟨hmax, h1, h8⟩ := h
  cases e with
  | throttle now =>
    refine ⟨hmax, ?_, ?_⟩
    · simp only [applyRLEvent, handleRateLimitError, hmax]
      refine le_min ?_ (by norm_num)
      nlinarith
    · simp only [applyRLEvent, handleRateLimitError, hmax]
      exact min_le_right _ _
  | success now =>
    exact rlInv_reset s now ⟨hmax, h1, h8⟩

theorem rlInv_run (s : RateLimitState) (events : List RLEvent) (h : RLInv s) :
    RLInv (runRL s events) := by
  induction events generalizing s with
  | nil => exact h
  | cons e rest ih => exact ih _ (rlInv_step s e h)

/-- Field `rateLimitCount` counts exactly the throttle events: it is incremented
by `handleRateLimitError` and read but never written by
`resetRateLimitState`. -/
theorem runRL_rateLimitCount (s : RateLimitState) (events : List RLEvent) :
    (runRL s events).rateLimitCount = s.rateLimitCount + throttleCount events := by
  induction events generalizing s with
  | nil => simp [runRL, throttleCount]
  | cons e rest ih =>
    cases e with
    | throttle now =>
      show (runRL (handleRateLimitError s now) rest).rateLimitCount = _
      rw [ih]
      simp [handleRateLimitError, throttleCount]
      omega
    | success now =>
      show (runRL (resetRateLimitState s now) rest).rateLimitCount = _
      rw [ih]
      have hcount : (resetRateLimitState s now).rateLimitCount = s.rateLimitCount := by
        simp only [resetRateLimitState]
        repeat' split
        all_goals rfl
      rw [hcount]
      simp [throttleCount]

/-- Calling `updateProgress` with `current = 0` always stores percentage 0. -/
theorem updateProgress_zero_percentage (item : QueueItem) (total : Nat) (message : String) :
    (updateProgress item 0 total message).progress.percentage = 0 := by
  by_cases h : 0 < total
  · simp only [updateProgress, if_pos h, jsRound]
    have hq : ((0 : Nat) : ℚ) / (total : ℚ) * 100 + 1 / 2 = 1 / 2 := by norm_num
    rw [hq]
    have hfl : ⌊(1 / 2 : ℚ)⌋ = 0 := by norm_num
    rw [hfl]
    rfl
  · simp only [updateProgress, if_neg h]

/-- With no duplicate ids in the queue, splicing an id out leaves no
element carrying that id. -/
theorem spliceFirst_all_not_id (l : List QueueItem) (id : Nat)
    (hnd : (l.map QueueItem.id).Nodup) :
    ∀ x ∈ spliceFirst (fun it => it.id == id) l, (x.id == id) = false := by
  induction l with
  | nil => intro x hx; simp [spliceFirst] at hx
  | cons a as ih =>
    intro x hx
    by_cases ha : (a.id == id) = true
    · have hid : a.id = id := by simpa using ha
      rw [spliceFirst, if_pos ha] at hx
      have hnotin : a.id ∉ as.map QueueItem.id := (List.nodup_cons.mp hnd).1
      have : x.id ≠ id := by
        intro hxid
        exact hnotin (hid ▸ hxid ▸ List.mem_map_of_mem QueueItem.id hx)
      simpa using this
    · have ha2 : (a.id == id) = false := by simpa using ha
      rw [spliceFirst, if_neg (by simp [ha2])] at hx
      rcases List.mem_cons.mp hx with rfl | hmem
      · exact ha2
      · exact ih (List.nodup_cons.mp hnd).2 x hmem

/-! ## The claims -/

/-- C1: at every point in any execution of the scheduler, for every
sequence of enqueue, cancel, admission and resolution steps from the
initial state, at most one job record is in the processing map: the count
of in-flight jobs never exceeds `maxConcurrent = 1`. -/
theorem C1_at_most_one_processing (steps : List SchedStep) :
    (runSched initialQueueState steps).processing.length ≤ 1 := by
  have h := schedInv_run initialQueueState steps schedInv_initial
  exact le_trans h.1 h.2

/-- C5: starting from its initial value 1, the backoff multiplier stays in
`[1, 8]` under every interleaving of throttle events (each scaling by 1.5
capped at the maximum 8) and successful calls (each scaling by 0.8 floored
at 1). -/
theorem C5_backoff_multiplier_bounded (events : List RLEvent) :
    1 ≤ (runRL initialRateLimitState events).backoffMultiplier ∧
      (runRL initialRateLimitState events).backoffMultiplier ≤ 8 := by
  have h := rlInv_run initialRateLimitState events rlInv_initial
  exact ⟨h.2.1, h.2.2⟩

/-- C2 counterexample: with a high-priority job already pending, a new
high-priority enqueue lands at the head, BEFORE the already-pending
high-priority job, not after it — `unshift` ignores the tier of the jobs
already in the queue, so FIFO within the High tier fails. -/
theorem C2_counterexample :
    addToQueue [mkQueueItem 1 "quiz" false 0 0 "high"] (mkQueueItem 2 "quiz" false 0 0 "high") =
      [mkQueueItem 2 "quiz" false 0 0 "high", mkQueueItem 1 "quiz" false 0 0 "high"] ∧
    (mkQueueItem 1 "quiz" false 0 0 "high").priority = "high" ∧
    mkQueueItem 2 "quiz" false 0 0 "high" ≠ mkQueueItem 1 "quiz" false 0 0 "high" := by
  refine ⟨by decide, by decide, by decide⟩

/-- C2 amended: enqueueing with high priority inserts the job at the head
of the pending queue — before every already-pending job, normal AND high
priority alike (LIFO within the High tier) — while any other priority
value appends it at the tail. -/
theorem C2_priority_insertion (q : List QueueItem) (item : QueueItem) :
    (item.priority = "high" → addToQueue q item = item :: q) ∧
    (item.priority ≠ "high" → addToQueue q item = q ++ [item]) := by
  constructor
  · intro h
    simp [addToQueue, h]
  · intro h
    simp [addToQueue, h]

/-- C2 witness: the amended insertion rule evaluated on concrete enqueues. -/
theorem C2_priority_insertion_witness :
    addToQueue [] (mkQueueItem 3 "quiz" false 0 0 "high") =
      [mkQueueItem 3 "quiz" false 0 0 "high"] ∧
    addToQueue [] (mkQueueItem 4 "quiz" false 0 0 "normal") =
      [mkQueueItem 4 "quiz" false 0 0 "normal"] :=
  ⟨(C2_priority_insertion [] (mkQueueItem 3 "quiz" false 0 0 "high")).1 rfl,
   (C2_priority_insertion [] (mkQueueItem 4 "quiz" false 0 0 "normal")).2 (by decide)⟩

/-- C3: cancellation succeeds exactly when the reported status is
`queued`, in which case the job is removed from the pending sequence (no
entry with its id remains, given unique ids); a `processing`, `completed`
or `failed` status yields `cannotCancel`, and an unknown id yields
`notFound`. -/
theorem C3_cancel_iff_queued (s : QueueState) (id : Nat) :
    ((cancelTranslation s id).1 = CancelOutcome.ok ↔
      (getStatus s id).map StatusView.kind = some "queued") ∧
    ((getStatus s id).map StatusView.kind = some "processing" →
      (cancelTranslation s id).1 = CancelOutcome.cannotCancel) ∧
    ((getStatus s id).map StatusView.kind = some "completed" →
      (cancelTranslation s id).1 = CancelOutcome.cannotCancel) ∧
    ((getStatus s id).map StatusView.kind = some "failed" →
      (cancelTranslation s id).1 = CancelOutcome.cannotCancel) ∧
    (getStatus s id = none → (cancelTranslation s id).1 = CancelOutcome.notFound) ∧
    ((s.queue.map QueueItem.id).Nodup → (cancelTranslation s id).1 = CancelOutcome.ok →
      (cancelTranslation s id).2.queue.all (fun it => !(it.id == id)) = true) := by
  match hp : s.processing.find? (fun it => it.id == id) with
  | some it =>
    simp [cancelTranslation, getStatus, hp, StatusView.kind]
  | none =>
    match hc : s.completed.find? (fun r => r.id == id) with
    | some r =>
      simp [cancelTranslation, getStatus, hp, hc, StatusView.kind]
    | none =>
      match hf : s.failed.find? (fun r => r.id == id) with
      | some r =>
        simp [cancelTranslation, getStatus, hp, hc, hf, StatusView.kind]
      | none =>
        match hq : s.queue.find? (fun it => it.id == id) with
        | some it =>
          have hpq := List.find?_some hq
          have hany : s.queue.any (fun it => it.id == id) = true :=
            List.any_eq_true.mpr ⟨it, List.mem_of_find?_eq_some hq, hpq⟩
          refine ⟨?_, ?_, ?_, ?_, ?_, ?_⟩
          · simp [cancelTranslation, getStatus, hp, hc, hf, hq, StatusView.kind,
              cancelRequest, hany]
          · simp [getStatus, hp, hc, hf, hq, StatusView.kind]
          · simp [getStatus, hp, hc, hf, hq, StatusView.kind]
          · simp [getStatus, hp, hc, hf, hq, StatusView.kind]
          · simp [getStatus, hp, hc, hf, hq]
          · intro hnd _
            have hall := spliceFirst_all_not_id s.queue id hnd
            simp only [cancelTranslation, getStatus, hp, hc, hf, hq, cancelRequest,
              if_pos hany, List.all_eq_true]
            intro x hx
            simp [hall x hx]
        | none =>
          simp [cancelTranslation, getStatus, hp, hc, hf, hq]

/-- C3 witness: a concrete queued job cancels with `ok`; an unknown id
reports `notFound`. -/
theorem C3_cancel_witness :
    (cancelTranslation
        { initialQueueState with queue := [mkQueueItem 1 "quiz" false 0 0 "normal"] } 1).1 =
      CancelOutcome.ok ∧
    (cancelTranslation
        { initialQueueState with queue := [mkQueueItem 1 "quiz" false 0 0 "normal"] } 2).1 =
      CancelOutcome.notFound :=
  ⟨(C3_cancel_iff_queued
      { initialQueueState with queue := [mkQueueItem 1 "quiz" false 0 0 "normal"] } 1).1.mpr
      (by decide),
   (C3_cancel_iff_queued
      { initialQueueState with queue := [mkQueueItem 1 "quiz" false 0 0 "normal"] } 2).2.2.2.2.1
      (by decide)⟩

/-- C4: the percentage stored by a progress update is
`round(current / total × 100)` (that is, `⌊current / total × 100 + 1/2⌋`)
when `total > 0` and `0` when `total = 0`; and across the successive
progress updates the code applies to any single job (one initial update
per known job type, none for unknown types), the percentage sequence is
non-decreasing. -/
theorem C4_percentage_formula_and_monotone (item : QueueItem) (current total : Nat)
    (message : String) (id : Nat) (type : String) (hasQuestions : Bool) (nQ nL : Nat)
    (priority : String) :
    ((0 < total → (updateProgress item current total message).progress.percentage =
        (⌊(current : ℚ) / (total : ℚ) * 100 + 1 / 2⌋).toNat) ∧
      (total = 0 → (updateProgress item current total message).progress.percentage = 0)) ∧
    List.Chain' (· ≤ ·)
      (percentageTrace (mkQueueItem id type hasQuestions nQ nL priority)
        (progressUpdates type nQ nL)) := by
  refine ⟨⟨?_, ?_⟩, ?_⟩
  · intro h
    simp only [updateProgress, if_pos h, jsRound]
  · intro h
    simp only [updateProgress, if_neg (by omega : ¬ 0 < total)]
  · have hstart : (mkQueueItem id type hasQuestions nQ nL priority).progress.percentage = 0 := rfl
    unfold progressUpdates
    by_cases h1 : type = "category"
    · simp [if_pos h1, percentageTrace, hstart, List.chain'_cons]
    · by_cases h2 : type = "course"
      · simp [if_neg h1, if_pos h2, percentageTrace, hstart, List.chain'_cons]
      · by_cases h3 : type = "quiz"
        · simp [if_neg h1, if_neg h2, if_pos h3, percentageTrace, hstart, List.chain'_cons]
        · by_cases h4 : type = "questions"
          · simp [if_neg h1, if_neg h2, if_neg h3, if_pos h4, percentageTrace, hstart,
              List.chain'_cons]
          · simp [if_neg h1, if_neg h2, if_neg h3, if_neg h4, percentageTrace]

/-- C4 witness: the formula at `current = 1, total = 3` and the percentage
trace of a concrete questions job. -/
theorem C4_percentage_witness :
    (updateProgress (mkQueueItem 9 "category" false 0 0 "normal") 1 3 "m").progress.percentage =
      (⌊((1 : Nat) : ℚ) / ((3 : Nat) : ℚ) * 100 + 1 / 2⌋).toNat ∧
    List.Chain' (· ≤ ·)
      (percentageTrace (mkQueueItem 9 "questions" true 2 3 "normal")
        (progressUpdates "questions" 2 3)) :=
  ⟨(C4_percentage_formula_and_monotone (mkQueueItem 9 "category" false 0 0 "normal") 1 3 "m"
      9 "questions" true 2 3 "normal").1.1 (by decide),
   (C4_percentage_formula_and_monotone (mkQueueItem 9 "category" false 0 0 "normal") 1 3 "m"
      9 "questions" true 2 3 "normal").2⟩

/-- C6 counterexample: a record completed at `T = 30` minutes is still
retrievable at `T + 61` minutes — the sweeper only runs at the hourly
ticks, and the tick at 60 minutes finds the record under one hour old, so
it is not purged until the tick at 120 minutes.  The claim that a status
query returns not-found at every time from `T + 61` minutes onward fails
here. -/
theorem C6_counterexample :
    terminalStatusAt "completed" (30 * 60 * 1000) (30 * 60 * 1000 + 61 * 60 * 1000) =
      some "completed" := by
  decide

/-- C6 amended: a terminal record stamped `T` is retrievable at every time
up to `T + 59` minutes, and a status query returns not-found at every time
from `T + 2` hours onward: the purge happens at the first hourly sweep
strictly more than one hour after `T`, which occurs at most two hours
after `T`. -/
theorem C6_retention_window (status : String) (T d t : Nat)
    (hd : d ≤ 59 * 60 * 1000) (ht : T + 2 * hourMs ≤ t) :
    terminalStatusAt status T (T + d) = some status ∧
    terminalStatusAt status T t = none := by
  constructor
  · have hret : terminalRetainedAt T (T + d) = true := by
      rw [terminalRetainedAt, List.all_eq_true]
      intro k hk
      by_cases hk0 : k = 0
      · simp [hk0]
      · have hkle : k ≤ (T + d) / hourMs := by
          have := List.mem_range.mp hk
          omega
        have hkH : k * hourMs ≤ T + d :=
          (Nat.le_div_iff_mul_le (by norm_num [hourMs])).mp hkle
        have hkeep : sweepKeeps (k * hourMs) T = true := by
          simp only [sweepKeeps, Bool.not_eq_true', decide_eq_false_iff_not]
          unfold hourMs at hkH ⊢
          omega
        simp [hkeep]
    simp [terminalStatusAt, hret]
  · have hret : terminalRetainedAt T t = false := by
      rw [terminalRetainedAt, List.all_eq_false]
      refine ⟨T / hourMs + 2, ?_, ?_⟩
      · have hdm : hourMs * (T / hourMs) + T % hourMs = T := Nat.div_add_mod T hourMs
        have hkH : (T / hourMs + 2) * hourMs ≤ t := by
          unfold hourMs at hdm ht ⊢
          omega
        have : T / hourMs + 2 ≤ t / hourMs :=
          (Nat.le_div_iff_mul_le (by norm_num [hourMs])).mpr hkH
        refine List.mem_range.mpr (by omega)
      · have hdm : hourMs * (T / hourMs) + T % hourMs = T := Nat.div_add_mod T hourMs
        have hmod : T % hourMs < hourMs := Nat.mod_lt _ (by norm_num [hourMs])
        have hkeep : sweepKeeps ((T / hourMs + 2) * hourMs) T = false := by
          simp only [sweepKeeps, Bool.not_eq_false', decide_eq_true_eq]
          unfold hourMs at hdm hmod ⊢
          omega
        simp [hkeep]
    simp [terminalStatusAt, hret]

/-- C6 witness: the amended retention window evaluated at a concrete
completion time. -/
theorem C6_retention_witness :
    terminalStatusAt "completed" (30 * 60 * 1000) (30 * 60 * 1000 + 59 * 60 * 1000) =
      some "completed" ∧
    terminalStatusAt "completed" (30 * 60 * 1000) (30 * 60 * 1000 + 2 * hourMs) = none :=
  ⟨(C6_retention_window "completed" (30 * 60 * 1000) (59 * 60 * 1000)
      (30 * 60 * 1000 + 2 * hourMs) (by decide) (by decide)).1,
   (C6_retention_window "completed" (30 * 60 * 1000) (59 * 60 * 1000)
      (30 * 60 * 1000 + 2 * hourMs) (by decide) (by decide)).2⟩

/-- In the chunk loop with `initial = 3`, a run that enters with batch
size 3 keeps it at 3: the grow branch requires `currentBatchSize < 3`. -/
theorem chunkLoop_cbs_three (n : Nat) (obs : Nat → ChunkObs) :
    ∀ fuel i k, ∀ p ∈ chunkLoop n 3 obs fuel i 3 k, p.1 = 3 ∧ 1 ≤ p.2 ∧ p.2 ≤ 3 := by
  intro fuel
  induction fuel with
  | zero =>
    intro i k p hp
    simp [chunkLoop] at hp
  | succ fuel ih =>
    intro i k p hp
    by_cases hin : i < n
    · simp only [chunkLoop, if_pos hin, lt_self_iff_false, and_false, if_false,
        List.mem_cons] at hp
      rcases hp with rfl | hp
      · exact ⟨rfl, Nat.le_min.mpr ⟨by omega, by omega⟩, min_le_left _ _⟩
      · exact ih _ _ p hp
    · simp [chunkLoop, if_neg hin] at hp

/-- In the chunk loop with `initial = 3`, a run that enters with batch
size 1 after at least one rate-limit event keeps it at 1 forever: the grow
branch requires `rateLimitCount === 0`, and the count never decreases. -/
theorem chunkLoop_cbs_one (n : Nat) (obs : Nat → ChunkObs)
    (hobs : ∀ j, 1 ≤ (obs j).rateLimitCount) :
    ∀ fuel i k, ∀ p ∈ chunkLoop n 3 obs fuel i 1 k, p.1 = 1 ∧ 1 ≤ p.2 ∧ p.2 ≤ 3 := by
  intro fuel
  induction fuel with
  | zero =>
    intro i k p hp
    simp [chunkLoop] at hp
  | succ fuel ih =>
    intro i k p hp
    by_cases hin : i < n
    · have hcond : ¬((obs k).isRateLimited = false ∧ (obs k).rateLimitCount = 0 ∧ 1 < 3) := by
        intro h
        have := hobs k
        omega
      simp only [chunkLoop, if_pos hin, if_neg hcond, List.mem_cons] at hp
      rcases hp with rfl | hp
      · exact ⟨rfl, Nat.le_min.mpr ⟨by omega, by omega⟩, le_trans (min_le_left _ _) (by omega)⟩
      · exact ih _ _ p hp
    · simp [chunkLoop, if_neg hin] at hp

/-- C7 counterexample: a run of 2 questions entered with
`isRateLimited = false` and `rateLimitCount = 1` (throttling has cleared
after one earlier throttle event) processes both chunks at batch size 1.
The first chunk completes with no throttling (the observed controller
state after it is unchanged), yet the batch size for the second chunk is
still 1, not 2: the grow branch additionally requires
`rateLimitCount === 0`, which never holds again once a throttle has been
counted. -/
theorem C7_counterexample :
    processQuestionsChunkSizes 2 ⟨false, 1⟩ (fun _ => ⟨false, 1⟩) 3 = [(1, 1), (1, 1)] ∧
    (processQuestionsChunkSizes 2 ⟨false, 1⟩ (fun _ => ⟨false, 1⟩) 3).map Prod.fst ≠ [1, 2] := by
  refine ⟨by decide, by decide⟩

/-- C7 amended: every chunk of a questions job runs at a batch size
between 1 and the configured initial size 3; the size is fixed for the
whole run — 1 throughout when the run enters rate limited or with any
recorded throttle events, 3 throughout otherwise — and in particular the
one-step ramp-up never fires, because it requires a throttle count of
exactly zero, which is impossible once the size has dropped to 1. -/
theorem C7_batch_size_bounds (n : Nat) (entry : ChunkObs) (obs : Nat → ChunkObs)
    (hentry : entry.isRateLimited = true → 1 ≤ entry.rateLimitCount)
    (hmono : ∀ j, entry.rateLimitCount ≤ (obs j).rateLimitCount) :
    (processQuestionsChunkSizes n entry obs 3).all
      (fun p =>
        (p.1 == (if entry.isRateLimited = true ∨ 0 < entry.rateLimitCount then 1 else 3)) &&
        (decide (1 ≤ p.2) && decide (p.2 ≤ 3))) = true := by
  rw [List.all_eq_true]
  intro p hp
  simp only [Bool.and_eq_true, beq_iff_eq, decide_eq_true_eq]
  unfold processQuestionsChunkSizes at hp
  by_cases hstart : entry.isRateLimited = true ∨ 0 < entry.rateLimitCount
  · have hcnt : 1 ≤ entry.rateLimitCount := by
      rcases hstart with h | h
      · exact hentry h
      · omega
    have hobs : ∀ j, 1 ≤ (obs j).rateLimitCount := fun j => le_trans hcnt (hmono j)
    rw [if_pos hstart] at hp ⊢
    have hfacts := chunkLoop_cbs_one n obs hobs n 0 0 p hp
    exact ⟨hfacts.1, hfacts.2.1, hfacts.2.2⟩
  · rw [if_neg hstart] at hp ⊢
    have hfacts := chunkLoop_cbs_three n obs n 0 0 p hp
    exact ⟨hfacts.1, hfacts.2.1, hfacts.2.2⟩

/-- C7 witness: the amended bound evaluated on a 7-question run that was
never throttled. -/
theorem C7_batch_size_witness :
    (processQuestionsChunkSizes 7 ⟨false, 0⟩ (fun _ => ⟨false, 0⟩) 3).all
      (fun p =>
        (p.1 == (if (ChunkObs.mk false 0).isRateLimited = true ∨
            0 < (ChunkObs.mk false 0).rateLimitCount then 1 else 3)) &&
        (decide (1 ≤ p.2) && decide (p.2 ≤ 3))) = true :=
  C7_batch_size_bounds 7 ⟨false, 0⟩ (fun _ => ⟨false, 0⟩)
    (by decide) (fun j => Nat.zero_le _)

/-- C8 counterexample: a 10-question, 3-language questions job whose run
hits exactly 2 throttle events and then succeeds is stored as `completed`
with a throttle count of 2 — but its progress counter still reads 0, not
30: `processItem` issues a single `updateProgress(0, 30, ...)` call and
never passes the callback into `translateQuestions`, and the completed
record carries no progress field at all. -/
theorem C8_counterexample :
    (processQuestionsItem (mkQueueItem 1 "questions" true 10 3 "normal")
        [RLEvent.throttle 0, RLEvent.success 60000, RLEvent.throttle 70000,
          RLEvent.success 130000]).2.status = "completed" ∧
    (processQuestionsItem (mkQueueItem 1 "questions" true 10 3 "normal")
        [RLEvent.throttle 0, RLEvent.success 60000, RLEvent.throttle 70000,
          RLEvent.success 130000]).2.rateLimitEncounters = 2 ∧
    (processQuestionsItem (mkQueueItem 1 "questions" true 10 3 "normal")
        [RLEvent.throttle 0, RLEvent.success 60000, RLEvent.throttle 70000,
          RLEvent.success 130000]).1.current = 0 ∧
    (processQuestionsItem (mkQueueItem 1 "questions" true 10 3 "normal")
        [RLEvent.throttle 0, RLEvent.success 60000, RLEvent.throttle 70000,
          RLEvent.success 130000]).1.current ≠ 30 := by
  refine ⟨rfl, ?_, rfl, by decide⟩
  show (runRL initialRateLimitState
      [RLEvent.throttle 0, RLEvent.success 60000, RLEvent.throttle 70000,
        RLEvent.success 130000]).rateLimitCount = 2
  rw [runRL_rateLimitCount]
  decide

/-- C8 amended: a questions job with 10 questions and 3 target languages
(total 30) whose translation calls eventually succeed despite at least two
throttle events reaches the completed record with a recorded throttle
count of at least 2 and a recorded operation total of 30 — but
`progress.current` remains 0 (and `progress.total` 30): the progress
callback is never invoked after the initial update, so the counter never
reaches 30. -/
theorem C8_questions_scenario (id : Nat) (events : List RLEvent)
    (h2 : 2 ≤ throttleCount events) :
    (processQuestionsItem (mkQueueItem id "questions" true 10 3 "normal") events).2.status =
      "completed" ∧
    2 ≤ (processQuestionsItem
        (mkQueueItem id "questions" true 10 3 "normal") events).2.rateLimitEncounters ∧
    (processQuestionsItem
        (mkQueueItem id "questions" true 10 3 "normal") events).2.totalOperations = 30 ∧
    (processQuestionsItem (mkQueueItem id "questions" true 10 3 "normal") events).1.current = 0 ∧
    (processQuestionsItem (mkQueueItem id "questions" true 10 3 "normal") events).1.total = 30 := by
  refine ⟨rfl, ?_, rfl, rfl, rfl⟩
  show 2 ≤ (runRL initialRateLimitState events).rateLimitCount
  rw [runRL_rateLimitCount]
  have : initialRateLimitState.rateLimitCount = 0 := rfl
  omega

/-- C8 witness: the amended scenario at a concrete two-throttle trace. -/
theorem C8_questions_scenario_witness :
    (processQuestionsItem (mkQueueItem 5 "questions" true 10 3 "normal")
        [RLEvent.throttle 0, RLEvent.throttle 1]).2.status = "completed" ∧
    2 ≤ (processQuestionsItem (mkQueueItem 5 "questions" true 10 3 "normal")
        [RLEvent.throttle 0, RLEvent.throttle 1]).2.rateLimitEncounters ∧
    (processQuestionsItem (mkQueueItem 5 "questions" true 10 3 "normal")
        [RLEvent.throttle 0, RLEvent.throttle 1]).2.totalOperations = 30 ∧
    (processQuestionsItem (mkQueueItem 5 "questions" true 10 3 "normal")
        [RLEvent.throttle 0, RLEvent.throttle 1]).1.current = 0 ∧
    (processQuestionsItem (mkQueueItem 5 "questions" true 10 3 "normal")
        [RLEvent.throttle 0, RLEvent.throttle 1]).1.total = 30 :=
  C8_questions_scenario 5 [RLEvent.throttle 0, RLEvent.throttle 1] (by decide)

/-- A language whose translation already exists is passed through: its
existing entry lands in the assembled array. -/
theorem buildTranslations_mem (existing : List Translation) (oracle : String → Translation) :
    ∀ (targets : List String) (lang : String) (tr : Translation),
      existing.find? (fun t => t.languageCode == lang) = some tr → lang ∈ targets →
      tr ∈ (buildTranslations existing oracle targets).1 := by
  intro targets
  induction targets with
  | nil =>
    intro lang tr _ hmem
    simp at hmem
  | cons l ls ih =>
    intro lang tr hf hmem
    rcases List.mem_cons.mp hmem with rfl | hmem
    · simp only [buildTranslations, hf]
      exact List.mem_cons_self _ _
    · simp only [buildTranslations]
      cases hf2 : existing.find? (fun t => t.languageCode == l) with
      | some tr2 => exact List.mem_cons_of_mem _ (ih lang tr hf hmem)
      | none => exact List.mem_cons_of_mem _ (ih lang tr hf hmem)

/-- A language whose translation already exists is never passed to the
translation call. -/
theorem buildTranslations_no_call (existing : List Translation) (oracle : String → Translation) :
    ∀ (targets : List String) (lang : String),
      (existing.find? (fun t => t.languageCode == lang)).isSome = true →
      lang ∉ (buildTranslations existing oracle targets).2 := by
  intro targets
  induction targets with
  | nil =>
    intro lang _
    simp [buildTranslations]
  | cons l ls ih =>
    intro lang hs
    simp only [buildTranslations]
    cases hf2 : existing.find? (fun t => t.languageCode == l) with
    | some tr2 => exact ih lang hs
    | none =>
      intro hmem
      rcases List.mem_cons.mp hmem with rfl | hmem2
      · rw [hf2] at hs
        simp at hs
      · exact ih lang hs hmem2

/-- C9: for every (question, target-language) work unit whose target
language already carries a translation on the question, the executor
passes the existing translation through into the result and performs no
translation call for that language — in every dispatch branch of
`translateSingleQuestion`. -/
theorem C9_idempotent_skip (rateLimited : Bool) (existing : List Translation)
    (oracle : String → Translation) (targets : List String) (lang : String) (tr : Translation)
    (hfound : existing.find? (fun t => t.languageCode == lang) = some tr)
    (htarget : lang ∈ targets) :
    tr ∈ (translateSingleQuestionTranslations rateLimited existing oracle targets).1 ∧
    lang ∉ (translateSingleQuestionTranslations rateLimited existing oracle targets).2 := by
  have hsome : (existing.find? (fun t => t.languageCode == lang)).isSome = true := by
    rw [hfound]
    rfl
  unfold translateSingleQuestionTranslations
  cases rateLimited with
  | true =>
    simp only [if_pos rfl]
    exact ⟨buildTranslations_mem existing oracle targets lang tr hfound htarget,
      buildTranslations_no_call existing oracle targets lang hsome⟩
  | false =>
    simp only [Bool.false_eq_true, if_false]
    by_cases hall : targets.all
        (fun l => (existing.find? (fun t => t.languageCode == l)).isSome) = true
    · rw [if_pos hall]
      exact ⟨List.mem_of_find?_eq_some hfound, List.not_mem_nil lang⟩
    · rw [if_neg hall]
      exact ⟨buildTranslations_mem existing oracle targets lang tr hfound htarget,
        buildTranslations_no_call existing oracle targets lang hsome⟩

/-- C9 witness: a question that already holds a French translation keeps
it verbatim and French is not among the called languages. -/
theorem C9_idempotent_skip_witness :
    Translation.mk "fr" "bonjour" ∈
      (translateSingleQuestionTranslations false
        [Translation.mk "en" "hello", Translation.mk "fr" "bonjour"]
        (fun l => Translation.mk l "X") ["fr", "es"]).1 ∧
    "fr" ∉ (translateSingleQuestionTranslations false
        [Translation.mk "en" "hello", Translation.mk "fr" "bonjour"]
        (fun l => Translation.mk l "X") ["fr", "es"]).2 :=
  C9_idempotent_skip false [Translation.mk "en" "hello", Translation.mk "fr" "bonjour"]
    (fun l => Translation.mk l "X") ["fr", "es"] "fr" (Translation.mk "fr" "bonjour")
    (by decide) (by decide)

/-- Draining the queue reaches the marked unknown-type job: after the jobs
ahead of it are served, it is admitted and immediately fails with the
`Unknown translation type` message. -/
theorem drainQueue_unknown (item : QueueItem) (hunknown : item.type ∉ knownTypes) :
    ∀ (pre : List QueueItem) (post : List QueueItem) (ocs : List (Option String))
      (c f : List TerminalRecord) (cp : Nat), ocs.length = pre.length →
      terminalRecord item (some ("Unknown translation type: " ++ item.type)) ∈
        (drainQueue ⟨pre ++ item :: post, [], c, f, cp⟩ (ocs ++ [none])).failed := by
  intro pre
  induction pre with
  | nil =>
    intro post ocs c f cp hlen
    have hocs : ocs = [] := List.eq_nil_of_length_eq_zero hlen
    subst hocs
    have hro : resolveOutcome item none =
        some ("Unknown translation type: " ++ item.type) := by
      simp [resolveOutcome, hunknown]
    simp only [List.nil_append, drainQueue, processHead, hro]
    simp

  | cons x pre ih =>
    intro post ocs c f cp hlen
    cases ocs with
    | nil => simp at hlen
    | cons oc ocs =>
      simp only [List.cons_append, drainQueue, processHead]
      cases hro : resolveOutcome x oc with
      | none =>
        simpa using ih post ocs _ f cp (by simpa using hlen)
      | some e =>
        simpa using ih post ocs c _ cp (by simpa using hlen)

/-- C10: enqueueing performs no validation of the job kind: any kind
string outside the four known ones is admitted into the pending queue with
`progress.total = 1` (the `estimateTotal` default), appended at the tail
under normal priority; once the jobs ahead of it have been served it is
dequeued and resolves to a failed record carrying the error message
`Unknown translation type: <kind>`, rather than being rejected at
submission. -/
theorem C10_unknown_type_flow (q0 : List QueueItem) (id : Nat) (type : String)
    (hasQuestions : Bool) (nQ nL : Nat) (ocs : List (Option String))
    (hunknown : type ∉ knownTypes) (hlen : ocs.length = q0.length) :
    (mkQueueItem id type hasQuestions nQ nL "normal").progress.total = 1 ∧
    addToQueue q0 (mkQueueItem id type hasQuestions nQ nL "normal") =
      q0 ++ [mkQueueItem id type hasQuestions nQ nL "normal"] ∧
    terminalRecord (mkQueueItem id type hasQuestions nQ nL "normal")
        (some ("Unknown translation type: " ++ type)) ∈
      (drainQueue
        ⟨addToQueue q0 (mkQueueItem id type hasQuestions nQ nL "normal"), [], [], [], 0⟩
        (ocs ++ [none])).failed := by
  have hk : ¬(type = "category" ∨ type = "course" ∨ type = "quiz" ∨ type = "questions") := by
    simpa [knownTypes] using hunknown
  have htot : (mkQueueItem id type hasQuestions nQ nL "normal").progress.total = 1 := by
    simp only [mkQueueItem, estimateTotal]
    rw [if_neg (by tauto), if_neg (by tauto)]
  have hadd : addToQueue q0 (mkQueueItem id type hasQuestions nQ nL "normal") =
      q0 ++ [mkQueueItem id type hasQuestions nQ nL "normal"] := by
    have hpr : (mkQueueItem id type hasQuestions nQ nL "normal").priority = "high" ↔ False := by
      simp [mkQueueItem]
    simp [addToQueue, hpr]
  refine ⟨htot, hadd, ?_⟩
  rw [hadd]
  have hitemtype : (mkQueueItem id type hasQuestions nQ nL "normal").type ∉ knownTypes :=
    hunknown
  exact drainQueue_unknown (mkQueueItem id type hasQuestions nQ nL "normal") hitemtype
    q0 [] ocs [] [] 0 hlen

/-- C10 witness: a job of kind `bogus` enqueued on an empty queue. -/
theorem C10_unknown_type_witness :
    (mkQueueItem 7 "bogus" false 0 0 "normal").progress.total = 1 ∧
    addToQueue [] (mkQueueItem 7 "bogus" false 0 0 "normal") =
      [] ++ [mkQueueItem 7 "bogus" false 0 0 "normal"] ∧
    terminalRecord (mkQueueItem 7 "bogus" false 0 0 "normal")
        (some ("Unknown translation type: " ++ "bogus")) ∈
      (drainQueue ⟨addToQueue [] (mkQueueItem 7 "bogus" false 0 0 "normal"), [], [], [], 0⟩
        ([] ++ [none])).failed :=
  C10_unknown_type_flow [] 7 "bogus" false 0 0 [] (by decide) rfl

end QuizFactor
